import Mathlib

/-!
Verification of the AutomatizacionesOle trading engine core.

Shallow embedding of the Python sources under `backend/` into Lean:
money amounts and prices are rationals, timestamps are integers
(day-granular where day arithmetic matters), fallible calls return
`Option`/`Except`, and awaited broker responses are passed in as explicit
oracle values.  Each section names the source file and function it embeds.
-/

namespace Ole

/-! ## Broker data model (backend/broker/broker_interface.py) -/

/-- `AccountInfo` dataclass (broker_interface.py). Only the numeric fields
consumed by the risk manager are modelled. -/
structure AccountInfo where
  equity : ℚ
  cash : ℚ
  buying_power : ℚ
  portfolio_value : ℚ
  deriving DecidableEq, Repr

/-- `Position` dataclass (broker_interface.py). -/
structure Position where
  symbol : String
  qty : ℚ
  side : String
  market_value : ℚ
  deriving DecidableEq, Repr

/-- Result of the risk manager's concurrent `broker.get_account()` /
`broker.get_positions()` refresh (`RiskManager._refresh_state`).  The
account is `Option` because the cached `_last_account` field is typed
`Optional[AccountInfo]` in the source. -/
structure BrokerSnapshot where
  account : Option AccountInfo
  positions : List Position
  deriving DecidableEq, Repr

/-! ## Risk manager (backend/core/risk_manager.py) -/

/-- Python `str.lower()` (an executable equivalent of `String.toLower`,
mapping `Char.toLower` over the characters). -/
def lowerStr (s : String) : String := String.mk (s.data.map Char.toLower)

/-- Python `c in s` for a single character (an executable equivalent of
`String.contains`). -/
def containsChar (s : String) (c : Char) : Bool := s.data.any (fun a => a == c)

/-- `RiskCheck` dataclass: outcome of one risk evaluation.  The numeric
interpolation inside the Python `reason` strings is elided; reasons are
kept as the stable text prefixes. -/
structure RiskCheck where
  approved : Bool
  reason : String := ""
  deriving DecidableEq, Repr

/-- `RiskCheck.ok()`. -/
def RiskCheck.ok : RiskCheck := { approved := true }

/-- `RiskCheck.reject(reason)`. -/
def RiskCheck.reject (reason : String) : RiskCheck :=
  { approved := false, reason := reason }

/-- `RiskLimits` dataclass. -/
structure RiskLimits where
  max_daily_loss_pct : ℚ := 0
  max_position_size_pct : ℚ := 0
  max_trades_per_day : ℤ := 0
  max_open_positions : ℤ := 20
  min_buying_power_pct : ℚ := 10
  deriving DecidableEq, Repr

/-- Mutable per-day state of `RiskManager`: the daily counters and the
cached account/position snapshot.  Dates are abstracted to integers. -/
structure RMState where
  current_date : Option ℤ := none
  daily_pnl : ℚ := 0
  trades_today : ℤ := 0
  equity_start_of_day : ℚ := 0
  last_account : Option AccountInfo := none
  last_positions : List Position := []
  deriving DecidableEq, Repr

/-- `RiskManager._refresh_state`: store the snapshot and, if
`equity_start_of_day` was unset, baseline it from the fresh account. -/
def refresh_state (st : RMState) (snap : BrokerSnapshot) : RMState :=
  let st' := { st with last_account := snap.account,
                       last_positions := snap.positions }
  match snap.account with
  | some acct =>
      if st'.equity_start_of_day ≤ 0 ∧ 0 < acct.equity then
        { st' with equity_start_of_day := acct.equity }
      else st'
  | none => st'

/-- `RiskManager._check_day_reset`: zero the daily counters when the
calendar day changed, rebaselining `equity_start_of_day`. -/
def check_day_reset (st : RMState) (today : ℤ) : RMState :=
  if st.current_date = some today then st
  else
    let st' := { st with current_date := some today, daily_pnl := 0,
                         trades_today := 0 }
    match st'.last_account with
    | some acct =>
        if 0 < acct.equity then { st' with equity_start_of_day := acct.equity }
        else st'
    | none => st'

/-- First matching position's `market_value` (the `for pos ... break` loop
sourced in `_check_position_size` / `calculate_position_size`), 0 if the
symbol has no position. -/
def existing_position_value (positions : List Position) (symbol : String) : ℚ :=
  match positions.find? (fun p => p.symbol == symbol) with
  | some p => p.market_value
  | none => 0

/-- `RiskManager._check_daily_loss`. -/
def check_daily_loss (limits : RiskLimits) (st : RMState) : RiskCheck :=
  if limits.max_daily_loss_pct ≤ 0 then RiskCheck.ok
  else if st.equity_start_of_day ≤ 0 then RiskCheck.ok
  else
    let max_loss := st.equity_start_of_day * (limits.max_daily_loss_pct / 100)
    let current_loss := |min st.daily_pnl 0|
    if max_loss ≤ current_loss then
      RiskCheck.reject "Perdida diaria maxima alcanzada"
    else RiskCheck.ok

/-- `RiskManager._check_trades_limit`. -/
def check_trades_limit (limits : RiskLimits) (st : RMState) : RiskCheck :=
  if limits.max_trades_per_day ≤ 0 then RiskCheck.ok
  else if limits.max_trades_per_day ≤ st.trades_today then
    RiskCheck.reject "Limite de operaciones diarias alcanzado"
  else RiskCheck.ok

/-- `RiskManager._check_position_size`: BUY-only cap of
`existing_value + order_value` against `equity · pct/100`.  The check is
skipped entirely when the limit is non-positive or no account is cached. -/
def check_position_size (limits : RiskLimits) (st : RMState)
    (symbol side : String) (order_value : ℚ) : RiskCheck :=
  if limits.max_position_size_pct ≤ 0 then RiskCheck.ok
  else
    match st.last_account with
    | none => RiskCheck.ok
    | some acct =>
        if lowerStr side == "sell" then RiskCheck.ok
        else
          let max_value := acct.equity * (limits.max_position_size_pct / 100)
          let existing_value := existing_position_value st.last_positions symbol
          let total_exposure := existing_value + order_value
          if max_value < total_exposure then
            RiskCheck.reject "Posicion excede el limite"
          else RiskCheck.ok

/-- `RiskManager._check_open_positions`. -/
def check_open_positions (limits : RiskLimits) (st : RMState)
    (side : String) : RiskCheck :=
  if limits.max_open_positions ≤ 0 then RiskCheck.ok
  else if lowerStr side == "sell" then RiskCheck.ok
  else if limits.max_open_positions ≤ (st.last_positions.length : ℤ) then
    RiskCheck.reject "Limite de posiciones abiertas alcanzado"
  else RiskCheck.ok

/-- `RiskManager._check_buying_power`.  The low-residual branch only logs a
warning (division by a zero equity, which would raise in Python, is elided:
it cannot change the approval outcome). -/
def check_buying_power (limits : RiskLimits) (st : RMState)
    (side : String) (order_value : ℚ) : RiskCheck :=
  match st.last_account with
  | none => RiskCheck.ok
  | some acct =>
      if lowerStr side == "sell" then RiskCheck.ok
      else if acct.buying_power < order_value then
        RiskCheck.reject "Buying power insuficiente"
      else RiskCheck.ok

/-- `RiskManager.evaluate_order`: refresh state from the broker (rejecting
when the refresh raised, modelled as `refresh = none`), roll the day, then
run the five checks in order with first-failure short-circuit. -/
def evaluate_order (limits : RiskLimits) (st : RMState) (today : ℤ)
    (symbol side : String) (qty price : ℚ)
    (refresh : Option BrokerSnapshot) : RiskCheck × RMState :=
  let order_value := qty * price
  match refresh with
  | none => (RiskCheck.reject "No se pudo obtener estado de la cuenta", st)
  | some snap =>
      let st1 := refresh_state st snap
      let st2 := check_day_reset st1 today
      let r1 := check_daily_loss limits st2
      if ¬ r1.approved then (r1, st2) else
      let r2 := check_trades_limit limits st2
      if ¬ r2.approved then (r2, st2) else
      let r3 := check_position_size limits st2 symbol side order_value
      if ¬ r3.approved then (r3, st2) else
      let r4 := check_open_positions limits st2 side
      if ¬ r4.approved then (r4, st2) else
      let r5 := check_buying_power limits st2 side order_value
      if ¬ r5.approved then (r5, st2) else
      (RiskCheck.ok, st2)

/-! ### Position sizing -/

/-- Round-half-to-even to an integer, the tie-breaking rule of Python's
builtin `round`. -/
def roundHalfEvenInt (q : ℚ) : ℤ :=
  if q - ⌊q⌋ < 1/2 then ⌊q⌋
  else if 1/2 < q - ⌊q⌋ then ⌊q⌋ + 1
  else if ⌊q⌋ % 2 = 0 then ⌊q⌋ else ⌊q⌋ + 1

/-- Python `round(q, d)`. -/
def roundTo (d : ℕ) (q : ℚ) : ℚ :=
  (roundHalfEvenInt (q * (10 : ℚ) ^ d) : ℚ) / (10 : ℚ) ^ d

/-- `RiskManager.calculate_position_size`: available value is
`min(equity·pct/100 − existing_value, 0.95·buying_power)` clamped at 0,
divided by price, rounded to 4 decimals, and zeroed when below 0.01.
A failed broker refresh (`refresh = none`), a non-positive price, or a
missing account short-circuit to 0. -/
def calculate_position_size (limits : RiskLimits) (st : RMState)
    (symbol : String) (price : ℚ) (refresh : Option BrokerSnapshot)
    (target_pct : Option ℚ) : ℚ :=
  if price ≤ 0 then 0
  else
    match refresh with
    | none => 0
    | some snap =>
        let st' := refresh_state st snap
        match st'.last_account with
        | none => 0
        | some acct =>
            let equity := acct.equity
            let buying_power := acct.buying_power
            let pct := target_pct.getD limits.max_position_size_pct
            let max_by_equity := equity * (pct / 100)
            let max_by_bp := buying_power * (95 / 100)
            let existing_value :=
              existing_position_value st'.last_positions symbol
            let available_value := max (min (max_by_equity - existing_value) max_by_bp) 0
            let qty := available_value / price
            if qty < 1/100 then 0 else roundTo 4 qty

/-! ## Local bar store (backend/data/storage.py)

A stored bar series is a list of `(timestamp, row)` pairs in file order;
timestamps are integers measured in days (so pandas `Timedelta(days=k)`
becomes the integer `k`). -/

/-- One OHLCV row of a stored DataFrame (the non-index columns). -/
structure Row where
  opn : ℚ
  high : ℚ
  low : ℚ
  close : ℚ
  volume : ℚ
  deriving DecidableEq, Repr

/-- A bar series: the DataFrame rows with their timestamp index. -/
abbrev Series := List (ℤ × Row)

/-- `LocalStorage.load_bars`: the stored frame filtered by the optional
inclusive `start`/`end` bounds (two successive pandas boolean filters).
The timezone coercions are identities here since timestamps are naive
integers. -/
def load_bars (stored : Series) (start stop : Option ℤ) : Series :=
  let afterStart :=
    match start with
    | none => stored
    | some s => stored.filter (fun x => s ≤ x.1)
  match stop with
  | none => afterStart
  | some e => afterStart.filter (fun x => x.1 ≤ e)

/-- `combined[~combined.index.duplicated(keep="last")]`: keep each row
whose timestamp does not occur again later in the list. -/
def dedupeKeepLast : Series → Series
  | [] => []
  | x :: xs =>
      if xs.any (fun y => y.1 == x.1) then dedupeKeepLast xs
      else x :: dedupeKeepLast xs

/-- Timestamp order used by `combined.sort_index()`. -/
def tsLE (a b : ℤ × Row) : Prop := a.1 ≤ b.1

instance : DecidableRel tsLE := fun a b => inferInstanceAs (Decidable (a.1 ≤ b.1))

instance : IsTotal (ℤ × Row) tsLE := ⟨fun a b => le_total a.1 b.1⟩

instance : IsTrans (ℤ × Row) tsLE := ⟨fun _ _ _ h h' => le_trans h h'⟩

/-- `LocalStorage.update_bars`: merge `new_df` into the stored series —
concat, drop duplicate timestamps keeping the last occurrence, sort
ascending, overwrite.  Returns the new stored series together with the
`n_new` row-count delta the Python function returns. -/
def update_bars (stored : Series) (new_df : Series) : Series × ℤ :=
  if new_df = [] then (stored, 0)
  else
    let existing := load_bars stored none none
    if existing = [] then (new_df, new_df.length)
    else
      let combined := (dedupeKeepLast (existing ++ new_df)).insertionSort tsLE
      (combined, (combined.length : ℤ) - existing.length)

/-! ## Market-data smart fetch (backend/data/market_data.py) -/

/-- `MarketDataService._range_covers`: the loaded frame covers the request
when its first timestamp is at most `start + 2` days and its last is at
least `end − 5` days (weekend/holiday tolerance). -/
def range_covers (df : Series) (start stop : Option ℤ) : Bool :=
  match df with
  | [] => false
  | x :: xs =>
      let dataStart := x.1
      let dataEnd := ((x :: xs).getLast (List.cons_ne_nil x xs)).1
      (match start with
       | none => true
       | some s => decide (dataStart ≤ s + 2)) &&
      (match stop with
       | none => true
       | some e => decide (e - 5 ≤ dataEnd))

/-- `MarketDataService._fetch_historical_single` with `source=AUTO`:
load locally with the requested bounds; if non-empty and
`range_covers`, return it; otherwise consult the download oracle
`yahoo_df` — when non-empty, `update_bars` it into the store and reload
with the exact bounds, else fall back to the (possibly incomplete) local
data.  Returns `(result, new stored series)`. -/
def fetch_historical_auto (stored : Series) (start stop : Option ℤ)
    (yahoo_df : Series) : Series × Series :=
  let local_df := load_bars stored start stop
  if local_df ≠ [] ∧ range_covers local_df start stop then
    (local_df, stored)
  else if yahoo_df ≠ [] then
    let stored' := (update_bars stored yahoo_df).1
    (load_bars stored' start stop, stored')
  else
    (local_df, stored)

/-! ## Strategy contract (backend/strategies/base_strategy.py) -/

/-- The `Signal` enum. -/
inductive Sig
  | buy
  | sell
  | hold
  deriving DecidableEq, Repr

/-- `Signal.value`. -/
def Sig.value : Sig → String
  | .buy => "BUY"
  | .sell => "SELL"
  | .hold => "HOLD"

/-- The `StrategyStatus` enum. -/
inductive StrategyStatus
  | idle
  | running
  | stopped
  | error
  deriving DecidableEq, Repr

/-- Per-symbol signals (the `dict[str, Signal]` return of
`calculate_signals`). -/
abbrev Signals := List (String × Sig)

/-- The mutable fields of `BaseStrategy` touched by `run`/`set_error`. -/
structure StratState where
  status : StrategyStatus := .idle
  error_message : Option String := none
  last_signals : Signals := []
  total_signals : ℕ := 0
  deriving DecidableEq, Repr

/-- `BaseStrategy.set_error`. -/
def set_error (st : StratState) (message : String) : StratState :=
  { st with status := .error, error_message := some message }

/-- `BaseStrategy.start`. -/
def strategy_start (st : StratState) : StratState :=
  { st with status := .running, error_message := none }

/-- `BaseStrategy.stop`. -/
def strategy_stop (st : StratState) : StratState :=
  { st with status := .stopped }

/-- `BaseStrategy.run`: raise (`Except.error`) unless `RUNNING`; delegate to
`calculate_signals` (its outcome passed in as `calc`); on an exception flip
to `ERROR` keeping the message and re-raise; on success record the signals
and count the non-HOLD ones. -/
def strategy_run (st : StratState) (calcRes : Except String Signals) :
    Except String Signals × StratState :=
  if st.status ≠ .running then
    (.error "Estrategia no esta corriendo", st)
  else
    match calcRes with
    | .error e => (.error e, set_error st e)
    | .ok signals =>
        let active := signals.filter (fun p => p.2 ≠ Sig.hold)
        (.ok signals,
         { st with last_signals := signals,
                   total_signals := st.total_signals + active.length })

/-! ## Engine signal processing (backend/core/engine.py)

The awaited broker/market-data/risk responses consumed while processing one
signal are passed in as a `SignalEnv` oracle.  The persisted `Trade` rows
are modelled by `TradeRow` (timestamps omitted: they are wall-clock
values). -/

/-- The fields of a broker `Order` the engine reads after submission. -/
structure Order where
  order_id : String
  status : String
  filled_avg_price : Option ℚ := none
  filled_qty : Option ℚ := none
  deriving DecidableEq, Repr

/-- The argument record of `broker.submit_order` as built by
`TradingEngine._process_signal`. -/
structure SubmitReq where
  symbol : String
  qty : ℚ
  side : String
  order_type : String := "market"
  time_in_force : String
  take_profit_price : Option ℚ := none
  stop_loss_price : Option ℚ := none
  deriving DecidableEq, Repr

/-- A persisted trade row (`TradingEngine._record_trade_to_db`). -/
structure TradeRow where
  strategy_name : String
  symbol : String
  side : String
  qty : ℚ
  order_type : String := "market"
  signal : Option String := none
  status : String
  alpaca_order_id : Option String := none
  filled_avg_price : Option ℚ := none
  filled_qty : Option ℚ := none
  notes : Option String := none
  deriving DecidableEq, Repr

/-- The strategy's optional `_bracket_params` field:
`(take_profit, stop_loss)` hints. -/
abbrev BracketParams := Option (Option ℚ × Option ℚ)

/-- Responses of the awaited calls inside
`TradingEngine._process_signal`: `get_latest_price` (`none` on failure),
`calculate_position_size`, `get_position`, `evaluate_order`, and
`submit_order` (`Except.error` when the broker raised). -/
structure SignalEnv where
  latest_price : Option ℚ
  calc_size : ℚ := 0
  position : Option Position := none
  risk_check : RiskCheck
  submit_result : Except String Order
  deriving Repr

/-- Everything `_process_signal` produced: the returned order (`none` when
skipped, rejected or errored), the persisted rows, the strategy's bracket
field afterwards, whether `risk_manager.record_trade()` ran, and the
submit request attempted (if submission was reached). -/
structure ProcessResult where
  order : Option Order := none
  rows : List TradeRow := []
  bracket : BracketParams
  record_trade_called : Bool := false
  attempted : Option SubmitReq := none
  deriving Repr

/-- `TradingEngine._process_signal`.  Mirrors the source control flow:
price gate, sizing (BUY) or position lookup (SELL), risk gate with a
`rejected` row on refusal, bracket read, TIF by crypto rule, submission;
a broker exception is caught into an `error` row (the bracket is cleared
only after a successful submit of a present bracket). -/
def process_signal (env : SignalEnv) (bracket : BracketParams)
    (strategy_name symbol : String) (signal : Sig) : ProcessResult :=
  let skip : ProcessResult := { bracket := bracket }
  match signal with
  | .hold => skip
  | _ =>
      let side := match signal with | .buy => "buy" | _ => "sell"
      match env.latest_price with
      | none => skip
      | some price =>
          if price ≤ 0 then skip
          else
            let qty? : Option ℚ :=
              match signal with
              | .buy => if env.calc_size ≤ 0 then none else some env.calc_size
              | _ => match env.position with
                     | none => none
                     | some pos => some |pos.qty|
            match qty? with
            | none => skip
            | some qty =>
                let baseRow : TradeRow :=
                  { strategy_name := strategy_name, symbol := symbol,
                    side := side, qty := qty, signal := some signal.value,
                    status := "pending" }
                if ¬ env.risk_check.approved then
                  let row :=
                    { baseRow with
                        status := "rejected",
                        notes := some
                          ("Risk rejected: " ++ env.risk_check.reason) }
                  { skip with rows := [row] }
                else
                  let tp_price := match bracket with
                                  | some bp => bp.1
                                  | none => none
                  let sl_price := match bracket with
                                  | some bp => bp.2
                                  | none => none
                  let tif := if containsChar symbol '/' then "gtc" else "day"
                  let req : SubmitReq :=
                    { symbol := symbol, qty := qty, side := side,
                      time_in_force := tif, take_profit_price := tp_price,
                      stop_loss_price := sl_price }
                  match env.submit_result with
                  | .error e =>
                      let row :=
                        { baseRow with
                            status := "error",
                            notes := some ("Broker error: " ++ e) }
                      { skip with rows := [row], attempted := some req }
                  | .ok order =>
                      let row :=
                        { baseRow with
                            status := order.status,
                            alpaca_order_id := some order.order_id,
                            filled_avg_price := order.filled_avg_price,
                            filled_qty := order.filled_qty }
                      { order := some order,
                        rows := [row],
                        bracket := if bracket.isSome then none else bracket,
                        record_trade_called := true,
                        attempted := some req }

/-- Accumulated outcome of the signal-processing portion of one cycle
(`TradingEngine._execute_cycle` step 4). -/
structure CycleResult where
  rows : List TradeRow := []
  orders_submitted : ℕ := 0
  bracket : BracketParams := none
  record_trade_calls : ℕ := 0
  deriving Repr

/-- The `for symbol, signal in active_signals.items()` loop of
`_execute_cycle`: process each signal in order (each processing is
individually guarded by `try/except`, and `process_signal` is total, so
the loop always reaches the next signal), threading the strategy's
bracket field. -/
def process_signals_loop (strategy_name : String) (bracket : BracketParams) :
    List (String × Sig × SignalEnv) → CycleResult
  | [] => { bracket := bracket }
  | (symbol, signal, env) :: rest =>
      let r := process_signal env bracket strategy_name symbol signal
      let tail := process_signals_loop strategy_name r.bracket rest
      { rows := r.rows ++ tail.rows,
        orders_submitted :=
          (if r.order.isSome then 1 else 0) + tail.orders_submitted,
        bracket := tail.bracket,
        record_trade_calls :=
          (if r.record_trade_called then 1 else 0) + tail.record_trade_calls }

/-- `TradingEngine._execute_cycle` from the `strategy.run(data)` call on:
an exception from the strategy body propagates out of the cycle, while
signal processing always completes. -/
def execute_cycle (strategy_name : String) (bracket : BracketParams)
    (run_result : Except String (List (String × Sig × SignalEnv))) :
    Except String CycleResult :=
  match run_result with
  | .error e => .error e
  | .ok signals =>
      .ok (process_signals_loop strategy_name bracket
            (signals.filter (fun s => s.2.1 ≠ Sig.hold)))

/-- The `consecutive_errors` bookkeeping of one `_strategy_loop`
iteration (engine.py lines 382–425): a cycle that raises increments the
counter, a completed cycle resets it to 0. -/
def strategy_loop_step (consecutive_errors : ℕ)
    (cycle : Except String CycleResult) : ℕ :=
  match cycle with
  | .ok _ => 0
  | .error _ => consecutive_errors + 1

/-! ## Backtester (backend/core/backtester.py)

Bars carry their timestamp; a per-symbol DataFrame is a list of bars in
index order, and the `data` dict is an association list.  In addition to
the source's state (`cash`, `_positions`, `_closed_trades`,
`_signals_log`, `_equity_history`) the model records a `fills` trace: one
entry per executed fill, written exactly where `_open_long`,
`_open_short` and `_close_position` mutate the book, carrying the bar the
execution price was read from and the timeline index of the signal that
caused it.  The trace is pure instrumentation; no definition reads it. -/

/-- One OHLCV bar with its timestamp (`open` is `opn`: `open` is a Lean
keyword). -/
structure Bar where
  ts : ℤ
  opn : ℚ
  high : ℚ
  low : ℚ
  close : ℚ
  volume : ℚ := 0
  deriving DecidableEq, Repr

/-- A per-symbol DataFrame. -/
abbrev Df := List Bar

/-- The `data: dict[str, DataFrame]` of the backtester. -/
abbrev MarketData := List (String × Df)

/-- Dictionary lookup `data[symbol]` (`symbol in data` guard included). -/
def dfOf (data : MarketData) (symbol : String) : Option Df :=
  (data.find? (fun p => p.1 == symbol)).map (fun p => p.2)

/-- `Backtester._get_bar_at`: the row at the exact timestamp when present,
otherwise the last row with timestamp at most `t`, `none` when no such
row exists. -/
def getBarAt (df : Df) (t : ℤ) : Option Bar :=
  if df.isEmpty then none
  else
    match df.find? (fun b => b.ts == t) with
    | some b => some b
    | none => (df.filter (fun b => b.ts ≤ t)).getLast?

/-- `BacktestConfig` (the fields the loop reads). -/
structure BTConfig where
  initial_capital : ℚ := 100000
  commission_per_trade : ℚ := 0
  position_size_pct : ℚ := 1/10
  max_positions : ℕ := 10
  allow_short : Bool := false
  deriving Repr

/-- `_OpenPosition`. -/
structure OpenPosition where
  symbol : String
  side : String
  qty : ℚ
  entry_price : ℚ
  entry_date : ℤ
  entry_bar_idx : ℕ
  deriving DecidableEq, Repr

/-- `BacktestTrade`. -/
structure BacktestTrade where
  symbol : String
  side : String
  qty : ℚ
  entry_price : ℚ
  entry_date : ℤ
  exit_price : ℚ
  exit_date : ℤ
  commission : ℚ
  pnl : ℚ
  pnl_pct : ℚ
  bars_held : ℤ
  deriving DecidableEq, Repr

/-- Which book mutation produced a fill. -/
inductive FillKind
  | openLong
  | openShort
  | closeSignal
  | closeFinal
  deriving DecidableEq, Repr

/-- Trace entry for one executed fill: the execution price, the bar it was
read from, the timeline index and timestamp of execution, and (for fills
triggered by a pending signal) the timeline index at which that signal
was generated. -/
structure Fill where
  symbol : String
  kind : FillKind
  price : ℚ
  bar : Bar
  exec_idx : ℕ
  exec_time : ℤ
  sig_idx : Option ℕ
  deriving DecidableEq, Repr

/-- Backtest loop state. -/
structure BTState where
  cash : ℚ
  positions : List OpenPosition := []
  closed_trades : List BacktestTrade := []
  signals_log : List (ℕ × ℤ × Signals) := []
  equity_history : List (ℤ × ℚ) := []
  fills : List Fill := []
  deriving DecidableEq, Repr

/-- `Backtester._open_long`.  The extra `bar`/`sig_idx` arguments only feed
the fills trace. -/
def open_long (cfg : BTConfig) (st : BTState) (symbol : String) (price : ℚ)
    (time : ℤ) (bar_idx : ℕ) (bar : Bar) (sig_idx : Option ℕ) : BTState :=
  if (st.positions.find? (fun p => p.symbol == symbol)).isSome then st
  else if cfg.max_positions ≤ st.positions.length then st
  else
    let equity := st.cash + (st.positions.map (fun p => p.qty * price)).sum
    let position_value := equity * cfg.position_size_pct
    let qty := position_value / price
    if qty ≤ 0 ∨ st.cash < position_value then st
    else
      let cost := qty * price + cfg.commission_per_trade
      let pos : OpenPosition :=
        { symbol := symbol, side := "BUY", qty := qty, entry_price := price,
          entry_date := time, entry_bar_idx := bar_idx }
      let fill : Fill :=
        { symbol := symbol, kind := .openLong, price := price, bar := bar,
          exec_idx := bar_idx, exec_time := time, sig_idx := sig_idx }
      { st with cash := st.cash - cost,
                positions := st.positions ++ [pos],
                fills := st.fills ++ [fill] }

/-- `Backtester._open_short`. -/
def open_short (cfg : BTConfig) (st : BTState) (symbol : String) (price : ℚ)
    (time : ℤ) (bar_idx : ℕ) (bar : Bar) (sig_idx : Option ℕ) : BTState :=
  if (st.positions.find? (fun p => p.symbol == symbol)).isSome then st
  else if cfg.max_positions ≤ st.positions.length then st
  else
    let equity := st.cash + (st.positions.map (fun p => p.qty * price)).sum
    let position_value := equity * cfg.position_size_pct
    let qty := position_value / price
    if qty ≤ 0 then st
    else
      let proceeds := qty * price - cfg.commission_per_trade
      let pos : OpenPosition :=
        { symbol := symbol, side := "SELL", qty := qty, entry_price := price,
          entry_date := time, entry_bar_idx := bar_idx }
      let fill : Fill :=
        { symbol := symbol, kind := .openShort, price := price, bar := bar,
          exec_idx := bar_idx, exec_time := time, sig_idx := sig_idx }
      { st with cash := st.cash + proceeds,
                positions := st.positions ++ [pos],
                fills := st.fills ++ [fill] }

/-- `Backtester._close_position`. -/
def close_position (cfg : BTConfig) (st : BTState) (symbol : String)
    (price : ℚ) (time : ℤ) (bar_idx : ℕ) (bar : Bar) (sig_idx : Option ℕ)
    (kind : FillKind) : BTState :=
  match st.positions.find? (fun p => p.symbol == symbol) with
  | none => st
  | some pos =>
      let commission := cfg.commission_per_trade
      let cash' :=
        if pos.side = "BUY" then st.cash + (pos.qty * price - commission)
        else st.cash - (pos.qty * price + commission)
      let pnl :=
        if pos.side = "BUY" then
          (price - pos.entry_price) * pos.qty - commission * 2
        else (pos.entry_price - price) * pos.qty - commission * 2
      let pnl_pct :=
        if pos.side = "BUY" then (price - pos.entry_price) / pos.entry_price
        else (pos.entry_price - price) / pos.entry_price
      let trade : BacktestTrade :=
        { symbol := symbol, side := pos.side, qty := pos.qty,
          entry_price := pos.entry_price, entry_date := pos.entry_date,
          exit_price := price, exit_date := time,
          commission := commission * 2, pnl := pnl, pnl_pct := pnl_pct,
          bars_held := (bar_idx : ℤ) - pos.entry_bar_idx }
      let fill : Fill :=
        { symbol := symbol, kind := kind, price := price, bar := bar,
          exec_idx := bar_idx, exec_time := time, sig_idx := sig_idx }
      { st with cash := cash',
                closed_trades := st.closed_trades ++ [trade],
                positions := st.positions.filter (fun p => !(p.symbol == symbol)),
                fills := st.fills ++ [fill] }

/-- `Backtester._execute_signals`: execute each pending signal at the open
of the bar `_get_bar_at` finds for `timeline[bar_idx]`.  `sig_idx` is the
timeline index at which the pending signals were generated (trace only). -/
def execute_signals (cfg : BTConfig) (signals : Signals) (data : MarketData)
    (timeline : List ℤ) (bar_idx : ℕ) (sig_idx : ℕ) (st : BTState) : BTState :=
  signals.foldl
    (fun st sp =>
      let symbol := sp.1
      match dfOf data symbol with
      | none => st
      | some df =>
          let current_time := timeline.getD bar_idx 0
          match getBarAt df current_time with
          | none => st
          | some bar =>
              let exec_price := bar.opn
              match sp.2 with
              | .buy => open_long cfg st symbol exec_price current_time
                          bar_idx bar (some sig_idx)
              | .sell =>
                  if (st.positions.find? (fun p => p.symbol == symbol)).isSome then
                    close_position cfg st symbol exec_price current_time
                      bar_idx bar (some sig_idx) .closeSignal
                  else if cfg.allow_short then
                    open_short cfg st symbol exec_price current_time
                      bar_idx bar (some sig_idx)
                  else st
              | .hold => st)
    st

/-- `Backtester._calculate_equity`. -/
def calculate_equity (data : MarketData) (current_time : ℤ) (st : BTState) : ℚ :=
  st.cash +
    (st.positions.map
      (fun pos =>
        match dfOf data pos.symbol with
        | none => 0
        | some df =>
            match getBarAt df current_time with
            | some bar => pos.qty * bar.close
            | none => pos.qty * pos.entry_price)).sum

/-- `Backtester._build_data_window`: truncate every symbol's frame to
`timestamp ≤ current_time`, dropping empty frames. -/
def build_data_window (data : MarketData) (current_time : ℤ) : MarketData :=
  data.filterMap
    (fun p =>
      let w := p.2.filter (fun b => b.ts ≤ current_time)
      if w.isEmpty then none else some (p.1, w))

/-- `Backtester._close_all_positions`: close every open position at the
CLOSE of the bar found for `timeline[bar_idx]`. -/
def close_all_positions (cfg : BTConfig) (data : MarketData)
    (timeline : List ℤ) (bar_idx : ℕ) (st : BTState) : BTState :=
  let current_time := timeline.getD bar_idx 0
  (st.positions.map (fun p => p.symbol)).foldl
    (fun st symbol =>
      match dfOf data symbol with
      | none => st
      | some df =>
          match getBarAt df current_time with
          | none => st
          | some bar =>
              close_position cfg st symbol bar.close current_time bar_idx bar
                none .closeFinal)
    st

/-- A strategy as the backtester drives it: a function from the truncated
data window to signals, `none` when `strategy.run` raised (the backtester
logs, resets the status and moves on). -/
abbrev StratFun := MarketData → Option Signals

/-- The `for i, current_time in enumerate(timeline)` loop of
`Backtester.run` (steps 5a–5e): execute the previous cycle's pending
signals, mark equity to close, and — once past the lookback — run the
strategy on the truncated window and stage its non-HOLD signals for the
next iteration. -/
def backtest_loop (cfg : BTConfig) (strat : StratFun) (data : MarketData)
    (timeline : List ℤ) (lookback : ℕ) :
    List ℤ → ℕ → Signals → ℕ → BTState → BTState
  | [], _, _, _, st => st
  | t :: rest, i, pending, pending_idx, st =>
      let st1 :=
        if pending.isEmpty then st
        else execute_signals cfg pending data timeline i pending_idx st
      let equity := calculate_equity data t st1
      let st2 := { st1 with equity_history := st1.equity_history ++ [(t, equity)] }
      if i < lookback then
        backtest_loop cfg strat data timeline lookback rest (i + 1) [] pending_idx st2
      else
        let window := build_data_window data t
        if window.isEmpty then
          backtest_loop cfg strat data timeline lookback rest (i + 1) [] pending_idx st2
        else
          match strat window with
          | none =>
              backtest_loop cfg strat data timeline lookback rest (i + 1) [] pending_idx st2
          | some signals =>
              let active := signals.filter (fun p => p.2 ≠ Sig.hold)
              let st3 :=
                if active.isEmpty then st2
                else { st2 with signals_log := st2.signals_log ++ [(i, t, active)] }
              backtest_loop cfg strat data timeline lookback rest (i + 1) active i st3

/-- The master timeline of `Backtester.run` step 2: the sorted union of
all bar timestamps. -/
def timelineOf (data : MarketData) : List ℤ :=
  (((data.map (fun p => p.2.map Bar.ts)).flatten).dedup).insertionSort (· ≤ ·)

/-- `Backtester.run` from state initialization onward (steps 4–6):
run the loop over the master timeline, then close every remaining
position at the last bar and append the final equity point.  `lookback`
is the value `_estimate_lookback` computed from the strategy parameters. -/
def backtest_run (cfg : BTConfig) (strat : StratFun) (data : MarketData)
    (lookback : ℕ) : BTState :=
  let timeline := timelineOf data
  let st0 : BTState := { cash := cfg.initial_capital }
  let st := backtest_loop cfg strat data timeline lookback timeline 0 [] 0 st0
  let last_idx := timeline.length - 1
  let st2 := close_all_positions cfg data timeline last_idx st
  let final_time := timeline.getD last_idx 0
  let final_equity := calculate_equity data final_time st2
  { st2 with equity_history := st2.equity_history ++ [(final_time, final_equity)] }

/-! ## Backtest metrics (backend/core/backtester.py, `_calculate_metrics`) -/

/-- The winning trade P&Ls (`[p for p in pnls if p > 0]`). -/
def winners (pnls : List ℚ) : List ℚ := pnls.filter (fun p => decide (0 < p))

/-- The losing trade P&Ls (`[p for p in pnls if p <= 0]`). -/
def losers (pnls : List ℚ) : List ℚ := pnls.filter (fun p => decide (p ≤ 0))

/-- `gross_profit` (`sum(winners) if winners else 0.0`; the empty sum is
already 0). -/
def gross_profit (pnls : List ℚ) : ℚ := (winners pnls).sum

/-- `gross_loss`. -/
def gross_loss (pnls : List ℚ) : ℚ := |(losers pnls).sum|

/-- A Python float that may be `float("inf")`. -/
inductive PFValue
  | inf
  | val (q : ℚ)
  deriving DecidableEq, Repr

/-- `profit_factor = gross_profit / gross_loss if gross_loss > 0 else
float("inf")`. -/
def profit_factor (pnls : List ℚ) : PFValue :=
  if 0 < gross_loss pnls then .val (gross_profit pnls / gross_loss pnls)
  else .inf

/-- The `profit_factor` entry of the metrics dict: `round(·, 3)`
(`round(inf, 3)` is `inf`). -/
def metric_profit_factor (pnls : List ℚ) : PFValue :=
  match profit_factor pnls with
  | .inf => .inf
  | .val q => .val (roundTo 3 q)

/-! ## Theorems -/

/-- Claim C4, as stated, is false: with no trades at all both
`gross_profit` and `gross_loss` are 0, yet the backtester's
`profit_factor` metric is `+∞` (the `gross_loss > 0` guard fails and the
`float("inf")` branch is taken), not 0 — so neither "`+∞` iff
`gross_loss = 0` and `gross_profit > 0`" nor "0 iff both are 0" holds. -/
theorem C4_counterexample :
    metric_profit_factor [] = PFValue.inf ∧
    gross_loss [] = 0 ∧ gross_profit [] = 0 ∧
    ¬(gross_loss [] = 0 ∧ 0 < gross_profit []) ∧
    metric_profit_factor [] ≠ PFValue.val 0 := by
  decide

/-- Claim C4 (corrected): the profit factor is `+∞` iff `gross_loss = 0`
(regardless of `gross_profit`, in particular with no trades), and the
unrounded profit factor is 0 iff `gross_profit = 0` while
`gross_loss > 0`. -/
theorem C4_profit_factor (pnls : List ℚ) :
    (profit_factor pnls = PFValue.inf ↔ gross_loss pnls = 0) ∧
    (metric_profit_factor pnls = PFValue.inf ↔ gross_loss pnls = 0) ∧
    (profit_factor pnls = PFValue.val 0 ↔
      gross_profit pnls = 0 ∧ 0 < gross_loss pnls) := by
  have hge : 0 ≤ gross_loss pnls := abs_nonneg _
  by_cases h : 0 < gross_loss pnls
  · have hne : gross_loss pnls ≠ 0 := ne_of_gt h
    refine ⟨?_, ?_, ?_⟩
    · simp [profit_factor, h, hne]
    · simp [metric_profit_factor, profit_factor, h, hne]
    · simp only [profit_factor, if_pos h]
      constructor
      · intro hv
        have : gross_profit pnls / gross_loss pnls = 0 := by
          injection hv
        rcases div_eq_zero_iff.mp this with h0 | h0
        · exact ⟨h0, h⟩
        · exact absurd h0 hne
      · rintro ⟨h0, -⟩
        simp [h0]
  · have h0 : gross_loss pnls = 0 := le_antisymm (not_lt.mp h) hge
    refine ⟨?_, ?_, ?_⟩
    · simp [profit_factor, h, h0]
    · simp [metric_profit_factor, profit_factor, h, h0]
    · simp [profit_factor, h, h0]

/-- Claim C5, as stated, is false: with `buying_power = equity = 100000`,
`max_position_size_pct = 5`, no existing position and `price = 50`,
`calculate_position_size` returns 100, not 1900 — the equity cap
`equity · 5% = 5000` is the binding minimum (not the 0.95-derated buying
power 95000), and `5000 / 50 = 100`. -/
theorem C5_counterexample :
    calculate_position_size
      { max_daily_loss_pct := 2, max_position_size_pct := 5,
        max_trades_per_day := 50 }
      {} "AAPL" 50
      (some { account := some { equity := 100000, cash := 100000,
                                buying_power := 100000,
                                portfolio_value := 100000 },
              positions := [] })
      none ≠ 1900 := by
  norm_num [calculate_position_size, refresh_state, existing_position_value,
    roundTo, roundHalfEvenInt]

/-- Claim C5 (corrected): in scenario S1 the sized quantity is
`min(equity·5% − 0, 0.95·buying_power) / price = 5000 / 50 = 100`. -/
theorem C5_position_size_s1 :
    calculate_position_size
      { max_daily_loss_pct := 2, max_position_size_pct := 5,
        max_trades_per_day := 50 }
      {} "AAPL" 50
      (some { account := some { equity := 100000, cash := 100000,
                                buying_power := 100000,
                                portfolio_value := 100000 },
              positions := [] })
      none = 100 := by
  norm_num [calculate_position_size, refresh_state, existing_position_value,
    roundTo, roundHalfEvenInt]

/-- `roundHalfEvenInt` of a nonnegative rational is nonnegative. -/
theorem roundHalfEvenInt_nonneg {q : ℚ} (h : 0 ≤ q) :
    0 ≤ roundHalfEvenInt q := by
  have hf : (0 : ℤ) ≤ ⌊q⌋ := Int.floor_nonneg.mpr h
  unfold roundHalfEvenInt
  split_ifs <;> omega

/-- `roundTo` of a nonnegative rational is nonnegative. -/
theorem roundTo_nonneg (d : ℕ) {q : ℚ} (h : 0 ≤ q) : 0 ≤ roundTo d q := by
  have h1 : (0 : ℤ) ≤ roundHalfEvenInt (q * (10 : ℚ) ^ d) :=
    roundHalfEvenInt_nonneg (mul_nonneg h (by positivity))
  have h2 : (0 : ℚ) ≤ ((roundHalfEvenInt (q * (10 : ℚ) ^ d) : ℤ) : ℚ) := by
    exact_mod_cast h1
  unfold roundTo
  exact div_nonneg h2 (by positivity)

/-- Claim C10 (confirmed): `calculate_position_size` is a total function
into the rationals, always returns a nonnegative quantity, and returns
exactly 0 when the price is non-positive, when the broker refresh failed,
when `min(equity·pct/100 − existing_value, 0.95·buying_power) ≤ 0`, or
when the resulting quantity falls below 0.01. -/
theorem C10_position_size_safety (limits : RiskLimits) (st : RMState)
    (symbol : String) (price : ℚ) (refresh : Option BrokerSnapshot)
    (target_pct : Option ℚ) :
    0 ≤ calculate_position_size limits st symbol price refresh target_pct ∧
    (price ≤ 0 →
      calculate_position_size limits st symbol price refresh target_pct = 0) ∧
    (refresh = none →
      calculate_position_size limits st symbol price refresh target_pct = 0) ∧
    (∀ snap acct, refresh = some snap →
      (refresh_state st snap).last_account = some acct →
      min (acct.equity * (target_pct.getD limits.max_position_size_pct / 100)
            - existing_position_value (refresh_state st snap).last_positions symbol)
          (acct.buying_power * (95 / 100)) ≤ 0 →
      calculate_position_size limits st symbol price refresh target_pct = 0) ∧
    (∀ snap acct, refresh = some snap →
      (refresh_state st snap).last_account = some acct →
      max (min (acct.equity * (target_pct.getD limits.max_position_size_pct / 100)
                 - existing_position_value (refresh_state st snap).last_positions symbol)
               (acct.buying_power * (95 / 100))) 0 / price < 1 / 100 →
      calculate_position_size limits st symbol price refresh target_pct = 0) := by
  unfold calculate_position_size
  by_cases hp : price ≤ 0
  · simp [hp]
  · simp only [if_neg hp]
    cases refresh with
    | none =>
        refine ⟨le_refl 0, fun h => absurd h hp, fun _ => rfl, ?_, ?_⟩ <;>
          · intro snap acct hsnap
            exact absurd hsnap (by simp)
    | some snap =>
        cases hacct : (refresh_state st snap).last_account with
        | none =>
            simp only [hacct]
            refine ⟨le_refl 0, fun h => absurd h hp, fun h => by simp at h,
              ?_, ?_⟩ <;>
              · intro snap' acct' hsnap hacct'
                injection hsnap with hs
                subst hs
                rw [hacct] at hacct'
                exact absurd hacct' (by simp)
        | some acct =>
            simp only [hacct]
            have hpr : 0 ≤ price := le_of_not_le hp
            refine ⟨?_, fun h => absurd h hp, fun h => by simp at h, ?_, ?_⟩
            · split_ifs with h
              · exact le_refl 0
              · exact roundTo_nonneg 4 (div_nonneg (le_max_right _ _) hpr)
            · intro snap' acct' hsnap hacct' hmin
              injection hsnap with hs
              subst hs
              rw [hacct] at hacct'
              injection hacct' with ha
              subst ha
              rw [max_eq_right hmin, zero_div, if_pos (by norm_num)]
            · intro snap' acct' hsnap hacct' hlt
              injection hsnap with hs
              subst hs
              rw [hacct] at hacct'
              injection hacct' with ha
              subst ha
              exact if_pos hlt

/-- Closed witness for C10: a failed broker refresh sizes to 0, and that
0 is nonnegative. -/
theorem C10_witness :
    calculate_position_size { max_position_size_pct := 5 } {} "AAPL" 50 none
      none = 0 ∧
    0 ≤ calculate_position_size { max_position_size_pct := 5 } {} "AAPL" 50
      none none := by
  have h := C10_position_size_safety { max_position_size_pct := 5 } {} "AAPL"
    50 none none
  exact ⟨h.2.2.1 rfl, h.1⟩

/-- Claim C8 (confirmed): `strategy.run` fails whenever the strategy is not
`RUNNING`; an exception from `calculate_signals` flips the status to
`ERROR` with the message preserved and is re-raised; a successful call
returns the signals and leaves the status `RUNNING`. -/
theorem C8_strategy_run (st : StratState) (calcRes : Except String Signals) :
    (st.status ≠ .running → ∀ sigs, (strategy_run st calcRes).1 ≠ .ok sigs) ∧
    (st.status = .running → ∀ e, calcRes = .error e →
      (strategy_run st calcRes).1 = .error e ∧
      (strategy_run st calcRes).2.status = .error ∧
      (strategy_run st calcRes).2.error_message = some e) ∧
    (st.status = .running → ∀ sigs, calcRes = .ok sigs →
      (strategy_run st calcRes).1 = .ok sigs ∧
      (strategy_run st calcRes).2.status = .running) := by
  refine ⟨?_, ?_, ?_⟩
  · intro hne sigs
    unfold strategy_run
    rw [if_pos hne]
    simp
  · intro hr e heq
    subst heq
    unfold strategy_run
    rw [if_neg (by simp [hr])]
    simp [set_error]
  · intro hr sigs heq
    subst heq
    unfold strategy_run
    rw [if_neg (by simp [hr])]
    exact ⟨rfl, hr⟩

/-- Closed witness for C8: a `RUNNING` strategy whose body raises `boom`
ends in `ERROR` with the message preserved, and an `IDLE` strategy's `run`
never returns signals. -/
theorem C8_witness :
    (strategy_run { status := .running } (.error "boom")).2.status = .error ∧
    (strategy_run { status := .running } (.error "boom")).2.error_message =
      some "boom" ∧
    (strategy_run { status := .idle } (.ok [])).1 ≠ .ok [] := by
  have h1 := (C8_strategy_run { status := .running } (.error "boom")).2.1
    rfl "boom" rfl
  have h2 := (C8_strategy_run { status := .idle } (.ok [])).1 (by decide) []
  exact ⟨h1.2.1, h1.2.2, h2⟩

/-- Claim C9 (confirmed): when `submit_order` raises, the strategy's
`_bracket_params` field is left exactly as it was (it is cleared only
after a successful submission), and every submit request the engine
builds takes its take-profit/stop-loss prices from that same field — so
the hints are reused by the next submission attempt. -/
theorem C9_bracket_frame (env : SignalEnv) (bracket : BracketParams)
    (strategy_name symbol : String) (signal : Sig) (e : String)
    (herr : env.submit_result = .error e) :
    (process_signal env bracket strategy_name symbol signal).bracket =
      bracket ∧
    ∀ req, (process_signal env bracket strategy_name symbol signal).attempted =
        some req →
      req.take_profit_price =
        (match bracket with | some bp => bp.1 | none => none) ∧
      req.stop_loss_price =
        (match bracket with | some bp => bp.2 | none => none) := by
  unfold process_signal
  cases signal with
  | hold => simp
  | buy =>
      cases hp : env.latest_price with
      | none => simp
      | some price =>
          simp only []
          by_cases hle : price ≤ 0
          · simp [hle]
          · by_cases hq : env.calc_size ≤ 0
            · simp [hle, hq]
            · by_cases hrisk : env.risk_check.approved
              · simp only [if_neg hle, if_neg hq, hrisk, not_true,
                  if_false, herr]
                simp
              · simp [hle, hq, hrisk]
  | sell =>
      cases hp : env.latest_price with
      | none => simp
      | some price =>
          simp only []
          by_cases hle : price ≤ 0
          · simp [hle]
          · cases hpos : env.position with
            | none => simp [hle]
            | some pos =>
                by_cases hrisk : env.risk_check.approved
                · simp only [hpos, if_neg hle, hrisk, not_true, if_false,
                    herr]
                  simp
                · simp [hle, hpos, hrisk]

/-- Closed witness for C9: a failing crypto BUY with an attached bracket
leaves the bracket attached, and the attempted request carried exactly
those take-profit/stop-loss prices. -/
theorem C9_witness :
    (process_signal
      { latest_price := some 65000, calc_size := 1,
        risk_check := RiskCheck.ok, submit_result := .error "timeout" }
      (some (some 70000, some 60000)) "btc_strategy" "BTC/USD"
      Sig.buy).bracket = some (some 70000, some 60000) ∧
    ∀ req, (process_signal
      { latest_price := some 65000, calc_size := 1,
        risk_check := RiskCheck.ok, submit_result := .error "timeout" }
      (some (some 70000, some 60000)) "btc_strategy" "BTC/USD"
      Sig.buy).attempted = some req →
      req.take_profit_price = some 70000 ∧ req.stop_loss_price = some 60000 := by
  have h := C9_bracket_frame
    { latest_price := some 65000, calc_size := 1,
      risk_check := RiskCheck.ok, submit_result := .error "timeout" }
    (some (some 70000, some 60000)) "btc_strategy" "BTC/USD" Sig.buy
    "timeout" rfl
  exact ⟨h.1, fun req hreq => (h.2 req hreq)⟩

/-- Claim C3, as stated, is false on the counter bump: a failing
`submit_order` does persist an `error` row with the broker message and the
cycle does continue with the next signal, but the exception is caught
inside `_process_signal`, so the cycle completes normally and the loop
RESETS `consecutive_errors` to 0 instead of incrementing it. -/
theorem C3_counterexample :
    ((process_signals_loop "sma_crossover" none
        [("AAPL", Sig.buy,
          { latest_price := some 50, calc_size := 10,
            risk_check := RiskCheck.ok, submit_result := .error "boom" }),
         ("MSFT", Sig.buy,
          { latest_price := some 40, calc_size := 5,
            risk_check := RiskCheck.ok,
            submit_result := .ok { order_id := "o1", status := "submitted" } })]).rows.map
      (fun r => (r.status, r.notes)) =
      [("error", some "Broker error: boom"), ("submitted", none)]) ∧
    (process_signals_loop "sma_crossover" none
        [("AAPL", Sig.buy,
          { latest_price := some 50, calc_size := 10,
            risk_check := RiskCheck.ok, submit_result := .error "boom" }),
         ("MSFT", Sig.buy,
          { latest_price := some 40, calc_size := 5,
            risk_check := RiskCheck.ok,
            submit_result := .ok { order_id := "o1", status := "submitted" } })]).orders_submitted = 1 ∧
    strategy_loop_step 3 (execute_cycle "sma_crossover" none
      (.ok [("AAPL", Sig.buy,
          { latest_price := some 50, calc_size := 10,
            risk_check := RiskCheck.ok, submit_result := .error "boom" }),
         ("MSFT", Sig.buy,
          { latest_price := some 40, calc_size := 5,
            risk_check := RiskCheck.ok,
            submit_result := .ok { order_id := "o1", status := "submitted" } })])) = 0 ∧
    strategy_loop_step 3 (execute_cycle "sma_crossover" none
      (.ok [("AAPL", Sig.buy,
          { latest_price := some 50, calc_size := 10,
            risk_check := RiskCheck.ok, submit_result := .error "boom" }),
         ("MSFT", Sig.buy,
          { latest_price := some 40, calc_size := 5,
            risk_check := RiskCheck.ok,
            submit_result := .ok { order_id := "o1", status := "submitted" } })])) ≠ 3 + 1 := by
  decide

/-- Claim C3 (corrected): a broker exception from `submit_order` while
processing a BUY persists an `error` trade row whose notes carry
`Broker error: <message>`, submits no order for that signal, and the
cycle moves on to the remaining signals (processed from the same bracket
state); the cycle therefore completes normally and the loop resets
`consecutive_errors` to 0 — it is NOT incremented. -/
theorem C3_broker_error_row (strategy_name symbol : String) (env : SignalEnv)
    (bracket : BracketParams) (rest : List (String × Sig × SignalEnv))
    (price : ℚ) (e : String) (n : ℕ)
    (hp : env.latest_price = some price) (hpos : 0 < price)
    (hq : 0 < env.calc_size) (hrisk : env.risk_check.approved = true)
    (herr : env.submit_result = .error e) :
    (process_signals_loop strategy_name bracket
        ((symbol, Sig.buy, env) :: rest)).rows =
      { strategy_name := strategy_name, symbol := symbol, side := "buy",
        qty := env.calc_size, signal := some "BUY", status := "error",
        notes := some ("Broker error: " ++ e) } ::
        (process_signals_loop strategy_name bracket rest).rows ∧
    (process_signals_loop strategy_name bracket
        ((symbol, Sig.buy, env) :: rest)).orders_submitted =
      (process_signals_loop strategy_name bracket rest).orders_submitted ∧
    strategy_loop_step n (execute_cycle strategy_name bracket
      (.ok ((symbol, Sig.buy, env) :: rest))) = 0 := by
  have hprice : ¬ price ≤ 0 := not_le.mpr hpos
  have hcalc : ¬ env.calc_size ≤ 0 := not_le.mpr hq
  have hproc : process_signal env bracket strategy_name symbol Sig.buy =
      { bracket := bracket,
        rows := [{ strategy_name := strategy_name, symbol := symbol,
                   side := "buy", qty := env.calc_size, signal := some "BUY",
                   status := "error",
                   notes := some ("Broker error: " ++ e) }],
        attempted := some
          { symbol := symbol, qty := env.calc_size, side := "buy",
            time_in_force := if containsChar symbol '/' then "gtc" else "day",
            take_profit_price :=
              (match bracket with | some bp => bp.1 | none => none),
            stop_loss_price :=
              (match bracket with | some bp => bp.2 | none => none) } } := by
    unfold process_signal
    rw [hp]
    simp only [if_neg hprice, if_neg hcalc, hrisk, not_true, if_false, herr]
    rfl
  refine ⟨?_, ?_, rfl⟩
  · show (process_signals_loop strategy_name bracket
        ((symbol, Sig.buy, env) :: rest)).rows = _
    simp only [process_signals_loop]
    rw [hproc]
    simp
  · show (process_signals_loop strategy_name bracket
        ((symbol, Sig.buy, env) :: rest)).orders_submitted = _
    simp only [process_signals_loop]
    rw [hproc]
    simp

/-- Closed witness for C3: the corrected statement applied to the concrete
failing BUY of the counterexample scenario. -/
theorem C3_witness :
    (process_signals_loop "sma_crossover" none
        [("AAPL", Sig.buy,
          { latest_price := some 50, calc_size := 10,
            risk_check := RiskCheck.ok,
            submit_result := .error "boom" })]).rows =
      [{ strategy_name := "sma_crossover", symbol := "AAPL", side := "buy",
         qty := 10, signal := some "BUY", status := "error",
         notes := some ("Broker error: " ++ "boom") }] := by
  have h := C3_broker_error_row "sma_crossover" "AAPL"
    { latest_price := some 50, calc_size := 10,
      risk_check := RiskCheck.ok, submit_result := .error "boom" }
    none [] 50 "boom" 0 rfl (by norm_num) (by norm_num) rfl rfl
  exact h.1

/-- The position-cap inequality of claim C1, read over a risk-manager
state: market value of the existing position in the symbol plus the order
value, against `equity · max_position_size_pct/100` of the cached
account (0 when none is cached). -/
def position_cap_holds (limits : RiskLimits) (st : RMState)
    (symbol : String) (qty price : ℚ) : Prop :=
  existing_position_value st.last_positions symbol + qty * price ≤
    (match st.last_account with | some a => a.equity | none => 0) *
      (limits.max_position_size_pct / 100)

/-- `refresh_state` stores exactly the snapshot's account. -/
theorem refresh_state_account (st : RMState) (snap : BrokerSnapshot) :
    (refresh_state st snap).last_account = snap.account := by
  unfold refresh_state
  cases hsa : snap.account with
  | none => rfl
  | some acct =>
      simp only []
      split_ifs <;> simp [hsa]

/-- `refresh_state` stores exactly the snapshot's positions. -/
theorem refresh_state_positions (st : RMState) (snap : BrokerSnapshot) :
    (refresh_state st snap).last_positions = snap.positions := by
  unfold refresh_state
  cases hsa : snap.account with
  | none => rfl
  | some acct =>
      simp only []
      split_ifs <;> rfl

/-- The day roll never touches the cached account. -/
theorem check_day_reset_account (st : RMState) (today : ℤ) :
    (check_day_reset st today).last_account = st.last_account := by
  unfold check_day_reset
  split_ifs with h
  · rfl
  · cases hsa : st.last_account with
    | none => rfl
    | some acct =>
        simp only []
        split_ifs <;> simp [hsa]

/-- The day roll never touches the cached positions. -/
theorem check_day_reset_positions (st : RMState) (today : ℤ) :
    (check_day_reset st today).last_positions = st.last_positions := by
  unfold check_day_reset
  split_ifs with h
  · rfl
  · cases hsa : st.last_account with
    | none => rfl
    | some acct =>
        simp only []
        split_ifs <;> rfl

/-- With a successful refresh the state returned by `evaluate_order` is
the refreshed, day-rolled state, on every code path. -/
theorem evaluate_order_state (limits : RiskLimits) (st : RMState)
    (today : ℤ) (symbol side : String) (qty price : ℚ)
    (snap : BrokerSnapshot) :
    (evaluate_order limits st today symbol side qty price (some snap)).2 =
      check_day_reset (refresh_state st snap) today := by
  unfold evaluate_order
  simp only []
  split_ifs <;> rfl

/-- An approved order passed the position-size check (it is the third
link of the short-circuited chain). -/
theorem evaluate_order_approved_position (limits : RiskLimits)
    (st : RMState) (today : ℤ) (symbol side : String) (qty price : ℚ)
    (snap : BrokerSnapshot)
    (happ : (evaluate_order limits st today symbol side qty price
        (some snap)).1.approved = true) :
    (check_position_size limits (check_day_reset (refresh_state st snap) today)
      symbol side (qty * price)).approved = true := by
  unfold evaluate_order at happ
  simp only [] at happ
  split_ifs at happ with h1 h2 h3 h4 h5
  · exact h3
  · exact absurd happ h5
  · exact absurd happ h4
  · exact absurd happ h3
  · exact absurd happ h2
  · exact absurd happ h1

/-- Claim C1, as stated, is false when the position-size limit is
disabled: with `max_position_size_pct = 0` (every check with a
non-positive limit is skipped) a BUY of value 500 on a 100000-equity
account is approved, yet `existing + qty·price ≤ equity · 0/100` fails. -/
theorem C1_counterexample :
    ((evaluate_order { max_position_size_pct := 0 } {} 0 "AAPL" "buy" 10 50
        (some { account := some { equity := 100000, cash := 100000,
                                  buying_power := 100000,
                                  portfolio_value := 100000 },
                positions := [] })).1.approved = true) ∧
    ¬ position_cap_holds { max_position_size_pct := 0 }
        ((evaluate_order { max_position_size_pct := 0 } {} 0 "AAPL" "buy" 10 50
          (some { account := some { equity := 100000, cash := 100000,
                                    buying_power := 100000,
                                    portfolio_value := 100000 },
                  positions := [] })).2) "AAPL" 10 50 := by
  constructor
  · simp [evaluate_order, refresh_state, check_day_reset,
      check_daily_loss, check_trades_limit, check_position_size,
      check_open_positions, check_buying_power, existing_position_value,
      RiskCheck.ok, RiskCheck.reject,
      show (lowerStr "buy" == "sell") = false from rfl]
    norm_num
  · simp [position_cap_holds, evaluate_order, refresh_state, check_day_reset,
      check_daily_loss, check_trades_limit, check_position_size,
      check_open_positions, check_buying_power, existing_position_value,
      RiskCheck.ok, RiskCheck.reject,
      show (lowerStr "buy" == "sell") = false from rfl]
    norm_num

/-- Claim C1 (corrected): whenever `max_position_size_pct > 0` and the
refresh delivered an account, every BUY approved by `evaluate_order`
satisfies `existing_position_value + qty·price ≤
equity · max_position_size_pct/100` over the state refreshed at the
moment of approval. -/
theorem C1_position_cap_approved (limits : RiskLimits) (st : RMState)
    (today : ℤ) (symbol : String) (qty price : ℚ) (acct : AccountInfo)
    (positions : List Position)
    (hpct : 0 < limits.max_position_size_pct)
    (happ : (evaluate_order limits st today symbol "buy" qty price
        (some { account := some acct, positions := positions })).1.approved =
      true) :
    position_cap_holds limits
      ((evaluate_order limits st today symbol "buy" qty price
        (some { account := some acct, positions := positions })).2)
      symbol qty price := by
  have h3 := evaluate_order_approved_position limits st today symbol "buy"
    qty price { account := some acct, positions := positions } happ
  rw [evaluate_order_state]
  set st2 := check_day_reset
    (refresh_state st { account := some acct, positions := positions })
    today with hst2
  have hacc : st2.last_account = some acct := by
    rw [hst2, check_day_reset_account, refresh_state_account]
  unfold check_position_size at h3
  rw [if_neg (not_le.mpr hpct)] at h3
  rw [hacc] at h3
  simp only [show (lowerStr "buy" == "sell") = false from rfl,
    Bool.false_eq_true, if_false] at h3
  by_cases hlt : acct.equity * (limits.max_position_size_pct / 100) <
      existing_position_value st2.last_positions symbol + qty * price
  · rw [if_pos hlt] at h3
    exact absurd h3 (by simp [RiskCheck.reject])
  · unfold position_cap_holds
    rw [hacc]
    exact not_lt.mp hlt

/-- Closed witness for C1: a concrete approved BUY (value 500 against a
5000 allowance) satisfies the cap. -/
theorem C1_witness :
    position_cap_holds { max_position_size_pct := 5 }
      ((evaluate_order { max_position_size_pct := 5 } {} 0 "AAPL" "buy" 10 50
        (some { account := some { equity := 100000, cash := 100000,
                                  buying_power := 100000,
                                  portfolio_value := 100000 },
                positions := [] })).2) "AAPL" 10 50 := by
  apply C1_position_cap_approved
  · norm_num
  · simp [evaluate_order, refresh_state, check_day_reset,
      check_daily_loss, check_trades_limit, check_position_size,
      check_open_positions, check_buying_power, existing_position_value,
      RiskCheck.ok, RiskCheck.reject,
      show (lowerStr "buy" == "sell") = false from rfl]
    norm_num

/-! ### Storage round-trip (claim C7) -/

/-- Strict timestamp order: the data-model invariant of a stored series
(monotonically increasing timestamps). -/
def tsLT (a b : ℤ × Row) : Prop := a.1 < b.1

instance : DecidableRel tsLT := fun a b => inferInstanceAs (Decidable (a.1 < b.1))

instance : IsAntisymm (ℤ × Row) tsLT :=
  ⟨fun _ _ h h' => absurd (lt_trans h h') (lt_irrefl _)⟩

/-- A strictly sorted series has pairwise distinct timestamps. -/
theorem keys_nodup_of_sorted {s : Series} (hs : s.Pairwise tsLT) :
    (s.map Prod.fst).Nodup :=
  List.pairwise_map.mpr (hs.imp fun h => ne_of_lt h)

/-- `dedupeKeepLast` is the identity on a series with distinct
timestamps. -/
theorem dedupeKeepLast_nodup_eq {l : Series}
    (h : (l.map Prod.fst).Nodup) : dedupeKeepLast l = l := by
  induction l with
  | nil => rfl
  | cons x xs ih =>
      have hx : x.1 ∉ xs.map Prod.fst := (List.nodup_cons.mp (by simpa using h)).1
      have hany : xs.any (fun y => y.1 == x.1) = false := by
        rw [List.any_eq_false]
        intro y hy
        simp only [beq_iff_eq]
        intro heq
        exact hx (heq ▸ List.mem_map_of_mem Prod.fst hy)
      have htl : (xs.map Prod.fst).Nodup := (List.nodup_cons.mp (by simpa using h)).2
      simp only [dedupeKeepLast, hany, Bool.false_eq_true, if_false]
      exact congrArg (x :: ·) (ih htl)

/-- Deduping a concatenation whose halves each have distinct timestamps
keeps the right half whole and drops from the left half exactly the rows
whose timestamp reappears on the right. -/
theorem dedupeKeepLast_append {l₁ l₂ : Series}
    (h₁ : (l₁.map Prod.fst).Nodup) (h₂ : (l₂.map Prod.fst).Nodup) :
    dedupeKeepLast (l₁ ++ l₂) =
      l₁.filter (fun x => !(l₂.any (fun y => y.1 == x.1))) ++ l₂ := by
  induction l₁ with
  | nil => simpa using dedupeKeepLast_nodup_eq h₂
  | cons x xs ih =>
      have hx : x.1 ∉ xs.map Prod.fst := (List.nodup_cons.mp (by simpa using h₁)).1
      have htl : (xs.map Prod.fst).Nodup := (List.nodup_cons.mp (by simpa using h₁)).2
      have hxs_any : xs.any (fun y => y.1 == x.1) = false := by
        rw [List.any_eq_false]
        intro y hy
        simp only [beq_iff_eq]
        intro heq
        exact hx (heq ▸ List.mem_map_of_mem Prod.fst hy)
      rw [List.cons_append]
      show (if ((xs ++ l₂).any (fun y => y.1 == x.1)) then
          dedupeKeepLast (xs ++ l₂) else x :: dedupeKeepLast (xs ++ l₂)) = _
      rw [List.any_append, hxs_any, Bool.false_or]
      cases hmem : l₂.any (fun y => y.1 == x.1) with
      | true =>
          rw [if_pos rfl, ih htl]
          rw [List.filter_cons, if_neg (by simp [hmem])]
      | false =>
          rw [if_neg (by simp), ih htl]
          rw [List.filter_cons, if_pos (by simp [hmem]), List.cons_append]

/-- Over a series with distinct timestamps, "some filtered row carries
this row's timestamp" is just the filter predicate itself. -/
theorem filter_any_eq {s : Series} (h : (s.map Prod.fst).Nodup)
    (p : (ℤ × Row) → Bool) :
    ∀ x ∈ s, ((s.filter p).any (fun y => y.1 == x.1)) = p x := by
  intro x hx
  cases hpx : p x with
  | false =>
      rw [List.any_eq_false]
      intro y hy
      simp only [beq_iff_eq]
      intro heq
      have hxy : y = x :=
        List.inj_on_of_nodup_map h (List.mem_of_mem_filter hy) hx heq
      have := List.of_mem_filter hy
      rw [hxy, hpx] at this
      exact Bool.noConfusion this
  | true =>
      rw [List.any_eq_true]
      exact ⟨x, List.mem_filter.mpr ⟨hx, hpx⟩, by simp⟩

/-- Merging any filtered-out slice of a strictly sorted stored series back
into the store is the identity: the claim-C7 core, for an arbitrary
filter. -/
theorem update_filter_roundtrip (s : Series) (p : (ℤ × Row) → Bool)
    (hs : s.Pairwise tsLT) :
    (update_bars s (s.filter p)).1 = s ∧ (update_bars s (s.filter p)).2 = 0 := by
  by_cases hemp : s.filter p = []
  · rw [hemp]
    exact ⟨rfl, rfl⟩
  · have hnodup := keys_nodup_of_sorted hs
    have hsub_nodup : ((s.filter p).map Prod.fst).Nodup :=
      ((List.filter_sublist s).map Prod.fst).nodup hnodup
    have hs_ne : s ≠ [] := by
      intro h
      rw [h] at hemp
      exact hemp rfl
    have hded : dedupeKeepLast (s ++ s.filter p) =
        s.filter (fun x => !((s.filter p).any (fun y => y.1 == x.1)))
          ++ s.filter p :=
      dedupeKeepLast_append hnodup hsub_nodup
    have hfc : s.filter (fun x => !((s.filter p).any (fun y => y.1 == x.1)))
        = s.filter (fun x => !(p x)) := by
      apply List.filter_congr
      intro x hx
      rw [filter_any_eq hnodup p x hx]
    have hperm : (dedupeKeepLast (s ++ s.filter p)).Perm s := by
      rw [hded, hfc]
      exact List.perm_append_comm.trans (List.filter_append_perm p s)
    have hperm2 : ((dedupeKeepLast (s ++ s.filter p)).insertionSort tsLE).Perm s :=
      (List.perm_insertionSort tsLE _).trans hperm
    have hsorted_le : ((dedupeKeepLast (s ++ s.filter p)).insertionSort
        tsLE).Pairwise tsLE := List.sorted_insertionSort tsLE _
    have hkeys : (((dedupeKeepLast (s ++ s.filter p)).insertionSort
        tsLE).map Prod.fst).Nodup :=
      ((hperm2.map Prod.fst).nodup_iff).mpr hnodup
    have hne_pair : ((dedupeKeepLast (s ++ s.filter p)).insertionSort
        tsLE).Pairwise (fun a b => a.1 ≠ b.1) := List.pairwise_map.mp hkeys
    have hsorted_lt : ((dedupeKeepLast (s ++ s.filter p)).insertionSort
        tsLE).Pairwise tsLT :=
      (hsorted_le.and hne_pair).imp fun h => lt_of_le_of_ne h.1 h.2
    have hcomb : (dedupeKeepLast (s ++ s.filter p)).insertionSort tsLE = s :=
      List.eq_of_perm_of_sorted hperm2 hsorted_lt hs
    constructor
    · show (update_bars s (s.filter p)).1 = s
      unfold update_bars
      rw [if_neg hemp]
      simp only [load_bars]
      rw [if_neg hs_ne]
      exact hcomb
    · show (update_bars s (s.filter p)).2 = 0
      unfold update_bars
      rw [if_neg hemp]
      simp only [load_bars]
      rw [if_neg hs_ne]
      simp only [hcomb]
      ring

/-- Claim C7 (confirmed): for a stored series whose timestamps are
strictly increasing (the data-model invariant), feeding any
`load_bars` slice back through `update_bars` leaves the stored series
identical — the merge (concat, dedupe-keep-last, sort ascending,
overwrite) reproduces exactly the same timestamps and values in the same
ascending order, and reports 0 new bars. -/
theorem C7_update_load_roundtrip (stored : Series) (start stop : Option ℤ)
    (hs : stored.Pairwise tsLT) :
    (update_bars stored (load_bars stored start stop)).1 = stored ∧
    (update_bars stored (load_bars stored start stop)).2 = 0 := by
  cases start with
  | none =>
      cases stop with
      | none =>
          have h : load_bars stored none none =
              stored.filter (fun _ => true) := by
            simp [load_bars]
          rw [h]
          exact update_filter_roundtrip stored _ hs
      | some e => exact update_filter_roundtrip stored _ hs
  | some a =>
      cases stop with
      | none => exact update_filter_roundtrip stored _ hs
      | some e =>
          have h : load_bars stored (some a) (some e) =
              stored.filter (fun x => decide (x.1 ≤ e) && decide (a ≤ x.1)) := by
            simp only [load_bars]
            exact List.filter_filter _ _
          rw [h]
          exact update_filter_roundtrip stored _ hs

/-- Closed witness for C7 at a concrete sorted two-bar store. -/
theorem C7_witness :
    (update_bars [((1 : ℤ), (⟨1, 1, 1, 1, 1⟩ : Row)), (3, ⟨2, 2, 2, 2, 2⟩)]
      (load_bars [((1 : ℤ), (⟨1, 1, 1, 1, 1⟩ : Row)), (3, ⟨2, 2, 2, 2, 2⟩)]
        (some 0) (some 2))).1 =
      [((1 : ℤ), (⟨1, 1, 1, 1, 1⟩ : Row)), (3, ⟨2, 2, 2, 2, 2⟩)] :=
  (C7_update_load_roundtrip
    [((1 : ℤ), (⟨1, 1, 1, 1, 1⟩ : Row)), (3, ⟨2, 2, 2, 2, 2⟩)]
    (some 0) (some 2) (by decide)).1

/-! ### Smart-fetch (claim C6) -/

/-- The coverage condition as the claim words it: the stored range
`[first, last]` contains `[start − 2 days, end + 5 days]`.  (Spec-side
definition, for comparison with the code's `range_covers`.) -/
@[reducible]
def spec_covers (stored : Series) (start stop : ℤ) : Prop :=
  stored ≠ [] ∧
  (stored.headD (0, ⟨0, 0, 0, 0, 0⟩)).1 ≤ start - 2 ∧
  stop + 5 ≤ (stored.getLastD (0, ⟨0, 0, 0, 0, 0⟩)).1

/-- Claim C6, as stated, is false: for a store holding bars at days
10, 15, 20 and the request `[10, 20]`, the code returns the local bars
unchanged (its tolerance check `first ≤ start+2 ∧ last ≥ end−5` passes),
yet the stored range `[10, 20]` does not cover `[start−2, end+5] = [8, 25]`
— so by the claim it should have downloaded, merged and reloaded, and the
(non-empty) download is ignored and the store left untouched. -/
theorem C6_counterexample :
    fetch_historical_auto
      [((10 : ℤ), (⟨1, 1, 1, 1, 1⟩ : Row)), (15, ⟨1, 1, 1, 1, 1⟩),
       (20, ⟨1, 1, 1, 1, 1⟩)]
      (some 10) (some 20) [(5, ⟨2, 2, 2, 2, 2⟩)] =
      (load_bars
        [((10 : ℤ), (⟨1, 1, 1, 1, 1⟩ : Row)), (15, ⟨1, 1, 1, 1, 1⟩),
         (20, ⟨1, 1, 1, 1, 1⟩)] (some 10) (some 20),
       [((10 : ℤ), (⟨1, 1, 1, 1, 1⟩ : Row)), (15, ⟨1, 1, 1, 1, 1⟩),
        (20, ⟨1, 1, 1, 1, 1⟩)]) ∧
    ¬ spec_covers
      [((10 : ℤ), (⟨1, 1, 1, 1, 1⟩ : Row)), (15, ⟨1, 1, 1, 1, 1⟩),
       (20, ⟨1, 1, 1, 1, 1⟩)] 10 20 := by
  decide

/-- Claim C6 (corrected): with source `auto` the service loads the store
with the requested bounds and returns that slice unchanged when it is
non-empty and its own `[first, last]` satisfies `first ≤ start + 2` and
`last ≥ end − 5` (tolerance widens the request, not the requirement);
otherwise it downloads — if the download is non-empty it merges it into
the store via `update_bars` and reloads with the exact requested bounds,
and if the download is empty it falls back to the (possibly incomplete)
local slice with the store untouched. -/
theorem C6_smart_fetch (stored : Series) (start stop : Option ℤ)
    (yahoo_df : Series) :
    (load_bars stored start stop ≠ [] ∧
        range_covers (load_bars stored start stop) start stop = true →
      fetch_historical_auto stored start stop yahoo_df =
        (load_bars stored start stop, stored)) ∧
    (¬ (load_bars stored start stop ≠ [] ∧
        range_covers (load_bars stored start stop) start stop = true) →
      yahoo_df ≠ [] →
      fetch_historical_auto stored start stop yahoo_df =
        (load_bars (update_bars stored yahoo_df).1 start stop,
         (update_bars stored yahoo_df).1)) ∧
    (¬ (load_bars stored start stop ≠ [] ∧
        range_covers (load_bars stored start stop) start stop = true) →
      yahoo_df = [] →
      fetch_historical_auto stored start stop yahoo_df =
        (load_bars stored start stop, stored)) := by
  refine ⟨?_, ?_, ?_⟩
  · intro h
    simp only [fetch_historical_auto]
    rw [if_pos h]
  · intro h hy
    simp only [fetch_historical_auto]
    rw [if_neg h, if_pos hy]
  · intro h hy
    simp only [fetch_historical_auto]
    rw [if_neg h, if_neg (by simp [hy])]

/-- Closed witness for C6: a covered request returns the local slice and
leaves the store untouched. -/
theorem C6_witness :
    fetch_historical_auto
      [((10 : ℤ), (⟨1, 1, 1, 1, 1⟩ : Row)), (20, ⟨1, 1, 1, 1, 1⟩)]
      (some 10) (some 20) [(5, ⟨2, 2, 2, 2, 2⟩)] =
      (load_bars [((10 : ℤ), (⟨1, 1, 1, 1, 1⟩ : Row)), (20, ⟨1, 1, 1, 1, 1⟩)]
        (some 10) (some 20),
       [((10 : ℤ), (⟨1, 1, 1, 1, 1⟩ : Row)), (20, ⟨1, 1, 1, 1, 1⟩)]) :=
  (C6_smart_fetch
    [((10 : ℤ), (⟨1, 1, 1, 1, 1⟩ : Row)), (20, ⟨1, 1, 1, 1, 1⟩)]
    (some 10) (some 20) [(5, ⟨2, 2, 2, 2, 2⟩)]).1 (by decide)

/-! ### Backtest execution timing (claim C2) -/

/-- The last element of a list is a member. -/
theorem mem_of_getLast?_eq {α : Type _} {l : List α} {a : α}
    (h : l.getLast? = some a) : a ∈ l := by
  rcases List.mem_getLast?_eq_getLast (Option.mem_def.mpr h) with ⟨hne, rfl⟩
  exact List.getLast_mem hne

/-- A bar found by `getBarAt` lives in the frame. -/
theorem getBarAt_mem {df : Df} {t : ℤ} {b : Bar}
    (h : getBarAt df t = some b) : b ∈ df := by
  unfold getBarAt at h
  split_ifs at h with he
  cases hf : df.find? (fun b => b.ts == t) with
  | some b' =>
      rw [hf] at h
      injection h with h
      subst h
      exact List.mem_of_find?_eq_some hf
  | none =>
      rw [hf] at h
      exact List.mem_of_mem_filter (mem_of_getLast?_eq h)

/-- A bar found by `getBarAt` is dated no later than the probe time. -/
theorem getBarAt_ts_le {df : Df} {t : ℤ} {b : Bar}
    (h : getBarAt df t = some b) : b.ts ≤ t := by
  unfold getBarAt at h
  split_ifs at h with he
  cases hf : df.find? (fun b => b.ts == t) with
  | some b' =>
      rw [hf] at h
      injection h with h
      subst h
      have := List.find?_some hf
      exact le_of_eq (by simpa using this)
  | none =>
      rw [hf] at h
      have hmem := mem_of_getLast?_eq h
      have := List.of_mem_filter hmem
      simpa using this

/-- When the frame has a bar at exactly the probe time, `getBarAt` finds
a bar at exactly that time (the exact-match branch). -/
theorem getBarAt_eq_of_mem {df : Df} {t : ℤ} {b : Bar}
    (h : getBarAt df t = some b) (hex : ∃ b' ∈ df, b'.ts = t) :
    b.ts = t := by
  unfold getBarAt at h
  split_ifs at h with he
  obtain ⟨b', hb', hts⟩ := hex
  cases hf : df.find? (fun b => b.ts == t) with
  | some b'' =>
      rw [hf] at h
      injection h with h
      subst h
      have := List.find?_some hf
      simpa using this
  | none =>
      exfalso
      have := List.find?_eq_none.mp hf b' hb'
      simp [hts] at this

/-- The no-look-ahead contract of one trace entry: a fill caused by a
signal generated at timeline index `j` executes at iteration `j + 1`, at
the open of the bar `getBarAt` resolves for `timeline[j+1]` — a bar dated
no later than `timeline[j+1]`, and exactly `timeline[j+1]` whenever the
symbol has a bar there. -/
def fill_ok (data : MarketData) (timeline : List ℤ) (f : Fill) : Prop :=
  ∀ j, f.sig_idx = some j →
    f.exec_idx = j + 1 ∧
    f.exec_time = timeline.getD f.exec_idx 0 ∧
    ∃ df, dfOf data f.symbol = some df ∧
      getBarAt df f.exec_time = some f.bar ∧
      f.bar.ts ≤ f.exec_time ∧
      ((∃ b ∈ df, b.ts = f.exec_time) → f.bar.ts = f.exec_time) ∧
      f.price = f.bar.opn

/-- `open_long` either leaves the trace alone or appends the recorded
entry fill. -/
theorem open_long_fills (cfg : BTConfig) (st : BTState) (symbol : String)
    (price : ℚ) (time : ℤ) (bar_idx : ℕ) (bar : Bar) (sig_idx : Option ℕ) :
    (open_long cfg st symbol price time bar_idx bar sig_idx).fills = st.fills ∨
    (open_long cfg st symbol price time bar_idx bar sig_idx).fills =
      st.fills ++ [⟨symbol, .openLong, price, bar, bar_idx, time, sig_idx⟩] := by
  unfold open_long
  simp only []
  split_ifs <;> simp

/-- `open_short` either leaves the trace alone or appends the recorded
entry fill. -/
theorem open_short_fills (cfg : BTConfig) (st : BTState) (symbol : String)
    (price : ℚ) (time : ℤ) (bar_idx : ℕ) (bar : Bar) (sig_idx : Option ℕ) :
    (open_short cfg st symbol price time bar_idx bar sig_idx).fills = st.fills ∨
    (open_short cfg st symbol price time bar_idx bar sig_idx).fills =
      st.fills ++ [⟨symbol, .openShort, price, bar, bar_idx, time, sig_idx⟩] := by
  unfold open_short
  simp only []
  split_ifs <;> simp

/-- `close_position` either leaves the trace alone or appends the
recorded exit fill. -/
theorem close_position_fills (cfg : BTConfig) (st : BTState)
    (symbol : String) (price : ℚ) (time : ℤ) (bar_idx : ℕ) (bar : Bar)
    (sig_idx : Option ℕ) (kind : FillKind) :
    (close_position cfg st symbol price time bar_idx bar sig_idx kind).fills =
      st.fills ∨
    (close_position cfg st symbol price time bar_idx bar sig_idx kind).fills =
      st.fills ++ [⟨symbol, kind, price, bar, bar_idx, time, sig_idx⟩] := by
  unfold close_position
  cases st.positions.find? (fun p => p.symbol == symbol) <;> simp

/-- Every fill added by `_execute_signals` executes at iteration
`bar_idx`, at the open of the bar `getBarAt` resolves for
`timeline[bar_idx]`, and is tagged with the generating index. -/
theorem execute_signals_fills (cfg : BTConfig) (signals : Signals)
    (data : MarketData) (timeline : List ℤ) (bar_idx sig_idx : ℕ)
    (st : BTState) :
    ∀ f ∈ (execute_signals cfg signals data timeline bar_idx sig_idx st).fills,
      f ∈ st.fills ∨
      (f.sig_idx = some sig_idx ∧ f.exec_idx = bar_idx ∧
       f.exec_time = timeline.getD bar_idx 0 ∧
       ∃ df, dfOf data f.symbol = some df ∧
         getBarAt df f.exec_time = some f.bar ∧ f.price = f.bar.opn) := by
  induction signals generalizing st with
  | nil => exact fun f hf => Or.inl hf
  | cons sp rest ih =>
      intro f hf
      have hstep : ∀ st' : BTState,
          (∀ g ∈ st'.fills, g ∈ st.fills ∨
            (g.sig_idx = some sig_idx ∧ g.exec_idx = bar_idx ∧
             g.exec_time = timeline.getD bar_idx 0 ∧
             ∃ df, dfOf data g.symbol = some df ∧
               getBarAt df g.exec_time = some g.bar ∧ g.price = g.bar.opn)) →
          ∀ g ∈ (execute_signals cfg rest data timeline bar_idx sig_idx
              st').fills, g ∈ st.fills ∨
            (g.sig_idx = some sig_idx ∧ g.exec_idx = bar_idx ∧
             g.exec_time = timeline.getD bar_idx 0 ∧
             ∃ df, dfOf data g.symbol = some df ∧
               getBarAt df g.exec_time = some g.bar ∧ g.price = g.bar.opn) := by
        intro st' hst' g hg
        rcases ih st' g hg with hin | hnew
        · exact hst' g hin
        · exact Or.inr hnew
      revert hf
      show f ∈ (execute_signals cfg rest data timeline bar_idx sig_idx _).fills →
        _
      refine hstep _ ?_ f
      intro g hg
      cases hdf : dfOf data sp.1 with
      | none =>
          simp only [hdf] at hg
          exact Or.inl hg
      | some df =>
          simp only [hdf] at hg
          cases hbar : getBarAt df (timeline.getD bar_idx 0) with
          | none =>
              simp only [hbar] at hg
              exact Or.inl hg
          | some bar =>
              simp only [hbar] at hg
              have hnewfill : ∀ kd,
                  g = ⟨sp.1, kd, bar.opn, bar, bar_idx,
                        timeline.getD bar_idx 0, some sig_idx⟩ →
                  g.sig_idx = some sig_idx ∧ g.exec_idx = bar_idx ∧
                  g.exec_time = timeline.getD bar_idx 0 ∧
                  ∃ df', dfOf data g.symbol = some df' ∧
                    getBarAt df' g.exec_time = some g.bar ∧
                    g.price = g.bar.opn := by
                intro kd hgeq
                subst hgeq
                exact ⟨rfl, rfl, rfl, df, hdf, hbar, rfl⟩
              cases hsig : sp.2 with
              | buy =>
                  simp only [hsig] at hg
                  rcases open_long_fills cfg st sp.1 bar.opn
                      (timeline.getD bar_idx 0) bar_idx bar (some sig_idx)
                    with heq | heq
                  · rw [heq] at hg
                    exact Or.inl hg
                  · rw [heq, List.mem_append] at hg
                    rcases hg with hg | hg
                    · exact Or.inl hg
                    · exact Or.inr (hnewfill _ (List.mem_singleton.mp hg))
              | sell =>
                  simp only [hsig] at hg
                  by_cases hpos :
                      (st.positions.find? (fun p => p.symbol == sp.1)).isSome
                  · rw [if_pos hpos] at hg
                    rcases close_position_fills cfg st sp.1 bar.opn
                        (timeline.getD bar_idx 0) bar_idx bar (some sig_idx)
                        .closeSignal with heq | heq
                    · rw [heq] at hg
                      exact Or.inl hg
                    · rw [heq, List.mem_append] at hg
                      rcases hg with hg | hg
                      · exact Or.inl hg
                      · exact Or.inr (hnewfill _ (List.mem_singleton.mp hg))
                  · rw [if_neg hpos] at hg
                    by_cases hshort : cfg.allow_short = true
                    · rw [if_pos hshort] at hg
                      rcases open_short_fills cfg st sp.1 bar.opn
                          (timeline.getD bar_idx 0) bar_idx bar (some sig_idx)
                        with heq | heq
                      · rw [heq] at hg
                        exact Or.inl hg
                      · rw [heq, List.mem_append] at hg
                        rcases hg with hg | hg
                        · exact Or.inl hg
                        · exact Or.inr (hnewfill _ (List.mem_singleton.mp hg))
                    · rw [if_neg hshort] at hg
                      exact Or.inl hg
              | hold =>
                  simp only [hsig] at hg
                  exact Or.inl hg

/-- Every fill added by `_close_all_positions` is a final close (no
generating signal index). -/
theorem close_all_fills (cfg : BTConfig) (data : MarketData)
    (timeline : List ℤ) (bar_idx : ℕ) (st : BTState) :
    ∀ f ∈ (close_all_positions cfg data timeline bar_idx st).fills,
      f ∈ st.fills ∨ f.sig_idx = none := by
  unfold close_all_positions
  simp only []
  generalize st.positions.map (fun p => p.symbol) = syms
  induction syms generalizing st with
  | nil => exact fun f hf => Or.inl hf
  | cons sym rest ih =>
      intro f hf
      rw [List.foldl_cons] at hf
      have hstep : ∀ g ∈ (match dfOf data sym with
          | none => st
          | some df =>
              match getBarAt df (timeline.getD bar_idx 0) with
              | none => st
              | some bar =>
                  close_position cfg st sym bar.close (timeline.getD bar_idx 0)
                    bar_idx bar none .closeFinal).fills,
          g ∈ st.fills ∨ g.sig_idx = none := by
        intro g hg
        cases hdf : dfOf data sym with
        | none =>
            simp only [hdf] at hg
            exact Or.inl hg
        | some df =>
            simp only [hdf] at hg
            cases hbar : getBarAt df (timeline.getD bar_idx 0) with
            | none =>
                simp only [hbar] at hg
                exact Or.inl hg
            | some bar =>
                simp only [hbar] at hg
                rcases close_position_fills cfg st sym bar.close
                    (timeline.getD bar_idx 0) bar_idx bar none .closeFinal
                  with heq | heq
                · rw [heq] at hg
                  exact Or.inl hg
                · rw [heq, List.mem_append] at hg
                  rcases hg with hg | hg
                  · exact Or.inl hg
                  · right
                    rw [List.mem_singleton.mp hg]
      rcases ih _ f hf with hin | hnone
      · exact hstep f hin
      · exact Or.inr hnone

/-- Invariant of the main loop: starting from a trace whose fills all
satisfy `fill_ok`, and with any pending signals generated exactly one
iteration earlier, the loop only ever appends `fill_ok` fills. -/
theorem backtest_loop_fill_ok (cfg : BTConfig) (strat : StratFun)
    (data : MarketData) (timeline : List ℤ) (lookback : ℕ) :
    ∀ (rem : List ℤ) (i : ℕ) (pending : Signals) (pidx : ℕ) (st : BTState),
      (pending ≠ [] → i = pidx + 1) →
      (∀ f ∈ st.fills, fill_ok data timeline f) →
      ∀ f ∈ (backtest_loop cfg strat data timeline lookback rem i pending
          pidx st).fills, fill_ok data timeline f := by
  intro rem
  induction rem with
  | nil => exact fun i pending pidx st _ hst f hf => hst f hf
  | cons t rest ih =>
      intro i pending pidx st hpend hst f hf
      rw [backtest_loop] at hf
      have hst1 : ∀ g ∈ (if pending.isEmpty then st
          else execute_signals cfg pending data timeline i pidx st).fills,
          fill_ok data timeline g := by
        intro g hg
        by_cases hpe : pending.isEmpty
        · rw [if_pos hpe] at hg
          exact hst g hg
        · rw [if_neg hpe] at hg
          have hi : i = pidx + 1 := hpend (by simpa using hpe)
          rcases execute_signals_fills cfg pending data timeline i pidx st
              g hg with hin | hnew
          · exact hst g hin
          · intro j hj
            obtain ⟨hsig, hidx, htime, df, hdf, hbar, hprice⟩ := hnew
            have hjp : j = pidx := by
              rw [hsig] at hj
              exact (Option.some_inj.mp hj).symm
            subst hjp
            refine ⟨by rw [hidx, hi], by rw [htime, hidx], df, hdf, hbar,
              getBarAt_ts_le hbar, ?_, hprice⟩
            intro hex
            exact getBarAt_eq_of_mem hbar hex
      simp only [] at hf
      set st1 := (if pending.isEmpty = true then st
        else execute_signals cfg pending data timeline i pidx st) with hdef
      by_cases hlb : i < lookback
      · rw [if_pos hlb] at hf
        refine ih (i + 1) [] pidx _ (fun h => absurd rfl h) ?_ f hf
        intro g hg
        exact hst1 g hg
      · rw [if_neg hlb] at hf
        by_cases hwin : (build_data_window data t).isEmpty
        · rw [if_pos hwin] at hf
          refine ih (i + 1) [] pidx _ (fun h => absurd rfl h) ?_ f hf
          intro g hg
          exact hst1 g hg
        · rw [if_neg hwin] at hf
          cases hstrat : strat (build_data_window data t) with
          | none =>
              simp only [hstrat] at hf
              refine ih (i + 1) [] pidx _ (fun h => absurd rfl h) ?_ f hf
              intro g hg
              exact hst1 g hg
          | some signals =>
              simp only [hstrat] at hf
              refine ih (i + 1) _ i _ (fun _ => rfl) ?_ f hf
              intro g hg
              split_ifs at hg <;> exact hst1 g hg

/-- Claim C2 (corrected): in every backtest run, a fill triggered by a
non-HOLD signal generated at timeline index `j` is executed at iteration
`j + 1`, at the OPEN of the bar `_get_bar_at` resolves for
`timeline[j+1]` — the latest bar of that symbol dated `≤ timeline[j+1]`.
When the symbol has a bar exactly at `timeline[j+1]` this is bar
`j+1`'s OPEN (true next-bar execution); otherwise the OPEN of an older
bar (index `≤ j`) is reused, so execution never reads data from after
`timeline[j+1]` but can re-price at or before the signal bar. -/
theorem C2_next_bar_execution (cfg : BTConfig) (strat : StratFun)
    (data : MarketData) (lookback : ℕ) :
    ∀ f ∈ (backtest_run cfg strat data lookback).fills,
      fill_ok data (timelineOf data) f := by
  intro f hf
  unfold backtest_run at hf
  simp only [] at hf
  rcases close_all_fills cfg data (timelineOf data)
      ((timelineOf data).length - 1) _ f hf with hin | hnone
  · refine backtest_loop_fill_ok cfg strat data (timelineOf data) lookback
      (timelineOf data) 0 [] 0 { cash := cfg.initial_capital }
      (fun h => absurd rfl h) ?_ f hin
    intro g hg
    exact absurd hg (by simp)
  · intro j hj
    rw [hnone] at hj
    exact absurd hj (by simp)

/-- Concrete two-symbol backtest data: symbol `A` has bars only at days 0
and 3, symbol `B` fills the union timeline with bars at days 1 and 2. -/
def C2data : MarketData :=
  [("A", [⟨0, 10, 10, 10, 10, 0⟩, ⟨3, 20, 20, 20, 20, 0⟩]),
   ("B", [⟨1, 10, 10, 10, 10, 0⟩, ⟨2, 10, 10, 10, 10, 0⟩])]

/-- A strategy that always asks to BUY `A`. -/
def C2strat : StratFun := fun _ => some [("A", Sig.buy)]

/-- The full fill trace of the concrete run: the BUY generated at
timeline index 1 executes at iteration 2 — but at the OPEN of `A`'s bar
of day 0, because `A` has no bar at `timeline[2] = 2`; the second fill is
the end-of-run close at day 3's CLOSE. -/
theorem C2fills :
    (backtest_run {} C2strat C2data 1).fills =
      [⟨"A", .openLong, 10, ⟨0, 10, 10, 10, 10, 0⟩, 2, 2, some 1⟩,
       ⟨"A", .closeFinal, 20, ⟨3, 20, 20, 20, 20, 0⟩, 3, 3, none⟩] := by
  have htl : timelineOf C2data = [0, 1, 2, 3] := by decide
  simp only [C2data] at htl
  simp [backtest_run, htl, backtest_loop, execute_signals,
    calculate_equity, build_data_window, close_all_positions, open_long,
    open_short, close_position, getBarAt, dfOf, C2data, C2strat,
    List.foldl, List.filterMap, List.filter, List.find?]
  norm_num
  simp [backtest_run, htl, backtest_loop, execute_signals,
    calculate_equity, build_data_window, close_all_positions, open_long,
    open_short, close_position, getBarAt, dfOf, C2data, C2strat,
    List.foldl, List.filterMap, List.filter, List.find?]

/-- Claim C2, as stated, is false: in the concrete run a non-HOLD signal
generated on the window ending at timeline index 1 is executed at a bar
whose timestamp is ≤ `timeline[1]` — the OPEN of symbol `A`'s day-0 bar
is reused because `A` has no bar at `timeline[2]` — not at a bar of index
2 or later as the claim requires. -/
theorem C2_counterexample :
    ∃ f ∈ (backtest_run {} C2strat C2data 1).fills,
      f.sig_idx = some 1 ∧ f.bar.ts ≤ (timelineOf C2data).getD 1 0 := by
  refine ⟨⟨"A", .openLong, 10, ⟨0, 10, 10, 10, 10, 0⟩, 2, 2, some 1⟩,
    ?_, rfl, ?_⟩
  · rw [C2fills]
    exact List.mem_cons_self _ _
  · have h : (timelineOf C2data).getD 1 0 = 1 := by decide
    rw [h]
    decide

/-- Closed witness for C2: the corrected statement instantiated at the
concrete run's signal fill. -/
theorem C2_witness :
    fill_ok C2data (timelineOf C2data)
      ⟨"A", .openLong, 10, ⟨0, 10, 10, 10, 10, 0⟩, 2, 2, some 1⟩ := by
  apply C2_next_bar_execution {} C2strat C2data 1
  rw [C2fills]
  exact List.mem_cons_self _ _

end Ole
